import Mathlib

/-!
Verification of the AIHW hospital-separations ETL core (`main.py`).

The spreadsheet engine is shallowly embedded: a sheet is a list of rows of
`Cell`s (text, integer number, or missing/NaN — numeric cells are modelled as
integers, which is what the separations counts are); pandas column/row
operations become explicit list operations.  Text handling is modelled over
the ASCII fragment (python's `str.strip`/`\s` additionally strip some unicode
whitespace, and `str.upper`/`lower` fold non-ASCII letters; the data of this
pipeline is ASCII).  Regular expressions from the source are translated
by hand, including python's `$` matching both at end of string and before a
single final newline.
-/

namespace AihwEtl

/-- A spreadsheet cell as seen by pandas after `read_excel`: a text value,
a numeric value (modelled as an integer), or a missing value (NaN). -/
inductive Cell where
  | str (s : String)
  | num (n : Int)
  | nan
deriving DecidableEq, Repr

/-- `STATE_CODES` from main.py line 20. -/
def STATE_CODES : List String :=
  ["NSW", "VIC", "QLD", "SA", "WA", "TAS", "NT", "ACT", "AUST"]

/-- python `str(cell)`: text is itself, numbers print, NaN prints as "nan". -/
def cellToStr : Cell → String
  | .str s => s
  | .num n => toString n
  | .nan => "nan"

/-- The character class of python's `\s` / `str.strip()` (ASCII fragment). -/
def pyWs (c : Char) : Bool :=
  c = ' ' || c = '\t' || c = '\n' || c = '\r' || c = '\x0b' || c = '\x0c'

/-- Strip characters satisfying `p` from both ends (python `str.strip`). -/
def trimBy (p : Char → Bool) (l : List Char) : List Char :=
  ((l.dropWhile p).reverse.dropWhile p).reverse

/-- `_norm_state` (main.py 42-45): uppercase, strip everything but A-Z,
then check membership in `STATE_CODES`. -/
def normState (s : String) : Option String :=
  let t := String.mk ((s.data.map Char.toUpper).filter
    (fun c => decide ('A' ≤ c ∧ c ≤ 'Z')))
  if t ∈ STATE_CODES then some t else none

/-- Number of cells of a row whose text normalises to a recognised state
code (the per-row count taken in `_header_row`, main.py 51). -/
def rowStateCount (r : List Cell) : Nat :=
  (r.filter (fun c => (normState (cellToStr c)).isSome)).length

/-- `_header_row` (main.py 48-53): first row index `i < min(40, len)` whose
row contains at least 2 recognised state codes, else none. -/
def headerRow (g : List (List Cell)) : Option Nat :=
  (List.range (min 40 g.length)).find?
    (fun i => decide (2 ≤ rowStateCount (g.getD i [])))

/-- `_rx_tuple1 = ^\("?\s*` applied by `re.sub` with empty replacement:
an anchored match removes a leading `(`, an optional following `"`, and any
following whitespace. -/
def rx1 : List Char → List Char
  | [] => []
  | c :: rest =>
    if c = '(' then
      match rest with
      | q :: r2 => if q = '"' then r2.dropWhile pyWs else (q :: r2).dropWhile pyWs
      | [] => []
    else c :: rest

/-- `_rx_tuple2 = "?\)$` on the reversed character list: remove a final `)`
optionally preceded by `"`; python's `$` also matches just before one final
newline. -/
def rx2rev : List Char → List Char
  | [] => []
  | c :: rest =>
    if c = ')' then
      match rest with
      | q :: r2 => if q = '"' then r2 else rest
      | [] => []
    else if c = '\n' then
      match rest with
      | d :: r2 =>
        if d = ')' then
          match r2 with
          | q :: r3 => if q = '"' then '\n' :: r3 else '\n' :: r2
          | [] => ['\n']
        else c :: rest
      | [] => c :: rest
    else c :: rest

/-- `re.sub(_rx_tuple2, "", s)`. -/
def rx2 (l : List Char) : List Char :=
  (rx2rev l.reverse).reverse

/-- The `[0-9]*\.?[0-9]+` part of `_rx_tuple3`. -/
def numCore (l : List Char) : Bool :=
  match l.span Char.isDigit with
  | (ds, []) => !ds.isEmpty
  | (_, c :: rest) => c = '.' && !rest.isEmpty && rest.all Char.isDigit

/-- The `\s*[-+]?[0-9]*\.?[0-9]+` tail of `_rx_tuple3` after the comma. -/
def numTail (l : List Char) : Bool :=
  match l.dropWhile pyWs with
  | [] => false
  | c :: r => if c = '+' || c = '-' then numCore r else numCore (c :: r)

/-- `_rx_tuple3 = ,\s*[-+]?[0-9]*\.?[0-9]+$` (anchored): the matching comma,
if any, is the last comma, since the tail character classes admit no comma;
remove from that comma to the end. -/
def rx3core (l : List Char) : List Char :=
  match l.reverse.dropWhile (fun c => c != ',') with
  | [] => l
  | _ :: revBefore =>
    if numTail (l.reverse.takeWhile (fun c => c != ',')).reverse then
      revBefore.reverse
    else l

/-- `re.sub(_rx_tuple3, "", s)`, with python's `$` also matching before one
final newline. -/
def rx3 (l : List Char) : List Char :=
  match l.reverse with
  | [] => []
  | c :: r => if c = '\n' then rx3core r.reverse ++ ['\n'] else rx3core l

/-- `_clean_text` (main.py 60-68) per cell: the three regex removals, then
`.str.strip()`, then `.str.strip('"')`.  The series-level `astype(str)` is
applied by callers via `cellToStr`. -/
def cleanText (s : String) : String :=
  String.mk (trimBy (fun c => c = '"') (trimBy pyWs (rx3 (rx2 (rx1 s.data)))))

/-- python `s.startswith(pre)` (over the character lists, so that it is
kernel-computable). -/
def pyStartsWith (pre s : String) : Bool :=
  pre.data.isPrefixOf s.data

/-- Column label pandas assigns from a header-row cell at position `j`:
missing header cells become `Unnamed: j`. -/
def colLabel (c : Cell) (j : Nat) : String :=
  match c with
  | .nan => "Unnamed: " ++ toString j
  | c => cellToStr c

/-- The dimension-column name derived from a non-state label (main.py 90):
`str(c).strip().lower().replace(" ", "_")`. -/
def pySafe (s : String) : String :=
  String.mk (((trimBy pyWs s.data).map Char.toLower).map
    (fun c => if c = ' ' then '_' else c))

/-- Width of the widest row (pandas rectangularises ragged rows, padding
with NaN). -/
def maxWidth (g : List (List Cell)) : Nat :=
  g.foldl (fun a r => max a r.length) 0

/-- The labelled columns of a sheet read with `header=hdr`: one label per
column position. -/
def sheetLabels (grid : List (List Cell)) (hdr : Nat) : List (String × Nat) :=
  (List.range (maxWidth (grid.drop hdr))).map
    (fun j => (colLabel ((grid.getD hdr []).getD j Cell.nan) j, j))

/-- Keep the first occurrence of each projection value (`df.loc[:,
~df.columns.duplicated()]`, main.py 79, and the groupby key set in `load`). -/
def dedupByAux {α β : Type} [DecidableEq β] (f : α → β) (seen : List β) :
    List α → List α
  | [] => []
  | a :: rest =>
    if f a ∈ seen then dedupByAux f seen rest
    else a :: dedupByAux f (f a :: seen) rest

/-- First-occurrence deduplication keyed on `f`. -/
def dedupBy {α β : Type} [DecidableEq β] (f : α → β) (l : List α) : List α :=
  dedupByAux f [] l

/-- The classification loop of main.py 84-92: state columns keep their code,
the rest become dimension columns under their safe name; positions are
carried along. -/
def classifyCols (labels : List (String × Nat)) :
    List (String × Nat) × List (String × Nat) :=
  labels.foldl
    (fun acc lj =>
      match normState lj.1 with
      | some st => (acc.1 ++ [(st, lj.2)], acc.2)
      | none => (acc.1, acc.2 ++ [(pySafe lj.1, lj.2)]))
    ([], [])

/-- main.py 96-98: the first dimension column, when its name is anonymous,
is renamed to `category`. -/
def renameCategory : List (String × Nat) → List (String × Nat)
  | [] => []
  | (n, i) :: rest =>
    if pyStartsWith "unnamed" n then ("category", i) :: rest
    else (n, i) :: rest

/-- Is `principal_diagnosis` among the current column names (`df.columns`:
state codes plus processed and pending dimension names)? -/
def principalTaken (states : List String) (done pending : List (String × Nat)) :
    Bool :=
  decide ("principal_diagnosis" ∈ states) ||
  decide ("principal_diagnosis" ∈ done.map Prod.fst) ||
  decide ("principal_diagnosis" ∈ pending.map Prod.fst)

/-- The loop of main.py 101-108 over `enumerate(id_cols[1:], start=1)`:
each anonymous dimension column becomes `principal_diagnosis` when that name
is not yet a column name, otherwise `dimension_{idx}`. `done` is the prefix
already processed (including position 0), `i` the current index. -/
def anonLoop (states : List String) :
    List (String × Nat) → Nat → List (String × Nat) → List (String × Nat)
  | done, _, [] => done
  | done, i, (n, ci) :: rest =>
    if pyStartsWith "unnamed" n then
      let newName :=
        if principalTaken states done ((n, ci) :: rest) then
          "dimension_" ++ toString i
        else "principal_diagnosis"
      anonLoop states (done ++ [(newName, ci)]) (i + 1) rest
    else anonLoop states (done ++ [(n, ci)]) (i + 1) rest

/-- main.py 101-108 applied to the whole dimension-column list. -/
def renameAnon (states : List String) (idCols : List (String × Nat)) :
    List (String × Nat) :=
  match idCols with
  | [] => []
  | h :: t => anonLoop states [h] 1 t

/-- main.py 111-113: drop the helper column `total`. -/
def dropTotal (idCols : List (String × Nat)) : List (String × Nat) :=
  idCols.filter (fun p => p.1 != "total")

/-- Column classification of one sheet whose header row is `hdr`
(main.py 79-113): state columns with their codes and positions, and the
final dimension columns with their names and positions. -/
def classifySheet (grid : List (List Cell)) (hdr : Nat) :
    List (String × Nat) × List (String × Nat) :=
  let cols := dedupBy Prod.fst (sheetLabels grid hdr)
  let st := (classifyCols cols).1
  let id0 := (classifyCols cols).2
  (st, dropTotal (renameAnon (st.map Prod.fst) (renameCategory id0)))

/-- The structural outcome of parsing one sheet: header row index, state
columns, dimension columns. -/
structure SheetPlan where
  hdr : Nat
  stateCols : List (String × Nat)
  idCols : List (String × Nat)
deriving DecidableEq, Repr

/-- Header location plus classification, with the main.py 74-76 and 115-116
unusability checks: none when no header row is found, or when fewer than 2
state columns or no dimension columns remain. -/
def planSheet (grid : List (List Cell)) : Option SheetPlan :=
  match headerRow grid with
  | none => none
  | some h =>
    if (classifySheet grid h).1.length < 2 ∨ (classifySheet grid h).2 = [] then
      none
    else some ⟨h, (classifySheet grid h).1, (classifySheet grid h).2⟩

/-- Position of the first dimension column (`id_cols[0]`). -/
def firstDimIdx (p : SheetPlan) : Nat :=
  (p.idCols.headD ("", 0)).2

/-- main.py 118, `df.dropna(subset=[id_cols[0]])`: the data rows below the
header whose first-dimension cell is not NaN. -/
def keptRows (grid : List (List Cell)) (p : SheetPlan) : List (List Cell) :=
  (grid.drop (p.hdr + 1)).filter
    (fun r => r.getD (firstDimIdx p) Cell.nan != Cell.nan)

/-- One long-form output row (the melt of main.py 126-130). -/
structure TidyRecord where
  year : Int
  state : String
  dims : List (String × String)
  separations : Int
deriving DecidableEq, Repr

/-- The cleaned dimension values of one data row (main.py 120-121:
`_clean_text` over each dimension column, whose `astype(str)` renders NaN
as "nan"). -/
def dimsOfRow (p : SheetPlan) (r : List Cell) : List (String × String) :=
  p.idCols.map (fun ni => (ni.1, cleanText (cellToStr (r.getD ni.2 Cell.nan))))

/-- Digits of an integer literal. -/
def digitsToNat (l : List Char) : Option Nat :=
  if l.isEmpty || !(l.all Char.isDigit) then none
  else some (l.foldl (fun a c => 10 * a + (c.toNat - '0'.toNat)) 0)

/-- `pd.to_numeric(x, errors="coerce")` modelled on integer literals:
optional surrounding whitespace, optional sign, one or more digits. -/
def parsePyInt (s : String) : Option Int :=
  match trimBy pyWs s.data with
  | '+' :: ds => (digitsToNat ds).map (fun n => (n : Int))
  | '-' :: ds => (digitsToNat ds).map (fun n => -(n : Int))
  | ds => (digitsToNat ds).map (fun n => (n : Int))

/-- main.py 123-124: numeric coercion of a state-column cell; a cell that
does not coerce becomes missing. -/
def toNumeric : Cell → Option Int
  | .num n => some n
  | .nan => none
  | .str s => parsePyInt s

/-- The melt of main.py 126-130: for each state column, one record per kept
row whose state cell coerces; rows whose coercion fails are dropped
(`dropna(subset=["separations"])`), and the year is attached. -/
def emit (grid : List (List Cell)) (p : SheetPlan) (year : Int) :
    List TidyRecord :=
  p.stateCols.flatMap (fun sc =>
    (keptRows grid p).filterMap (fun r =>
      (toNumeric (r.getD sc.2 Cell.nan)).map (fun v =>
        { year := year, state := sc.1, dims := dimsOfRow p r,
          separations := v })))

/-- `parse_sheet` (main.py 72-131). -/
def parseSheet (grid : List (List Cell)) (year : Int) :
    Option (List TidyRecord) :=
  (planSheet grid).map (fun p => emit grid p year)

/-- The leftmost match of `(\d{4})-(\d{2})` (main.py 141): returns the value
of the two-digit group. -/
def findYear : List Char → Option Nat
  | a :: b :: c :: d :: '-' :: e :: f :: rest =>
    if a.isDigit && b.isDigit && c.isDigit && d.isDigit &&
        e.isDigit && f.isDigit then
      some (10 * (e.toNat - '0'.toNat) + (f.toNat - '0'.toNat))
    else findYear (b :: c :: d :: '-' :: e :: f :: rest)
  | _ :: rest => findYear rest
  | [] => none

/-- main.py 141-142: publication year from the source url, 9999 when the
pattern is absent. -/
def yearOf (url : String) : Int :=
  match findYear url.data with
  | some y2 => 2000 + (y2 : Int)
  | none => 9999

/-- `re.match(r"Table\s*[45S]", s, re.I)` (main.py 143). -/
def tableMatch (s : String) : Bool :=
  match s.data with
  | t :: a :: b :: l :: e :: rest =>
    t.toLower == 't' && a.toLower == 'a' && b.toLower == 'b' &&
    l.toLower == 'l' && e.toLower == 'e' &&
    (match rest.dropWhile pyWs with
     | c :: _ => c = '4' || c = '5' || c = 'S' || c = 's'
     | [] => false)
  | _ => false

/-- One workbook source, already resolved to its sheet grids (network
retrieval is the external collaborator). -/
structure Source where
  url : String
  sheets : List (String × List (List Cell))
deriving DecidableEq, Repr

/-- The `frames` accumulator of `compile_all` (main.py 136-146): per
eligible sheet, a parse result that is neither None nor empty. -/
def usableFrames (srcs : List Source) : List (List TidyRecord) :=
  srcs.flatMap (fun src =>
    (src.sheets.filter (fun sh => tableMatch sh.1)).filterMap (fun sh =>
      match parseSheet sh.2 (yearOf src.url) with
      | some recs => if recs = [] then none else some recs
      | none => none))

/-- `compile_all` (main.py 135-151): raise when no usable frame was
produced, otherwise the concatenation of all frames. -/
def compileAll (srcs : List Source) : Except String (List TidyRecord) :=
  if usableFrames srcs = [] then
    .error "No valid data extracted - parsing rules may need an update."
  else .ok (usableFrames srcs).flatten

/-- One row of the unified long-form table handed to `load`: dimension
values are aligned with the table's dimension-column list and may be missing
(concat of frames with differing columns leaves NaN). -/
structure URow where
  year : Int
  state : String
  dims : List (Option String)
  seps : Int
deriving DecidableEq, Repr

/-- The unified table (`tidy` of main.py 149) as seen by `load`. -/
structure UTable where
  dimCols : List String
  rows : List URow
deriving DecidableEq, Repr

/-- main.py 160: the grouping dimension columns — every column other than
year/state/separations that has at least one non-null value
(`df[c].notna().any()`); positions into `dimCols`. -/
def catIdxs (t : UTable) : List Nat :=
  (List.range t.dimCols.length).filter
    (fun j => t.rows.any (fun r => (r.dims.getD j none).isSome))

/-- The grouping key of one row (main.py 162-164): year, state, and the
dimension values at the grouping columns with NaN replaced by "". -/
def keyOf (cats : List Nat) (r : URow) : Int × String × List String :=
  (r.year, r.state, cats.map (fun j => (r.dims.getD j none).getD ""))

/-- The aggregation of `load` (main.py 160-164): `fillna("")` on the
grouping columns, group by (year, state, *cats), sum separations.  Groups
are emitted one row per distinct key, in first-occurrence order (pandas
orders them by sorted key; row order is irrelevant to the properties
proved here). -/
def reduce (t : UTable) : UTable :=
  let cats := catIdxs t
  let ks := dedupBy id (t.rows.map (keyOf cats))
  { dimCols := cats.map (fun j => t.dimCols.getD j ""),
    rows := ks.map (fun k =>
      { year := k.1, state := k.2.1, dims := k.2.2.map some,
        seps := ((t.rows.filter (fun r => decide (keyOf cats r = k))).map
          URow.seps).sum }) }

/-- The positional rename rule of main.py 101-108 as an explicit fold (the
"ordered rule list" of the spec's design notes): `taken` records whether a
column named `principal_diagnosis` exists; each anonymous column becomes
`principal_diagnosis` when free (making it taken forever after), otherwise
`dimension_{i}`. -/
def renameRule (taken : Bool) (i : Nat) :
    List (String × Nat) → List (String × Nat)
  | [] => []
  | (n, ci) :: rest =>
    if pyStartsWith "unnamed" n then
      (if taken then ("dimension_" ++ toString i, ci)
       else ("principal_diagnosis", ci)) :: renameRule true (i + 1) rest
    else (n, ci) :: renameRule taken (i + 1) rest

/-- A concrete unified table used to witness the aggregation theorems. -/
def wtable7 : UTable :=
  ⟨["a"], [⟨2023, "NSW", [some "x"], 5⟩, ⟨2023, "NSW", [some "x"], 7⟩]⟩

/-! ### Trimming and regex-removal lemmas -/

theorem dropWhile_idem (p : Char → Bool) (l : List Char) :
    (l.dropWhile p).dropWhile p = l.dropWhile p := by
  induction l with
  | nil => rfl
  | cons a t ih =>
    by_cases h : p a
    · simpa [List.dropWhile_cons, h] using ih
    · simp [List.dropWhile_cons, h]

theorem dropWhile_eq_self_of_prefix (p : Char → Bool) {x y : List Char}
    (hpre : y <+: x) (hx : x.dropWhile p = x) : y.dropWhile p = y := by
  cases y with
  | nil => rfl
  | cons a t =>
    obtain ⟨z, hz⟩ := hpre
    by_cases h : p a
    · exfalso
      rw [← hz, List.cons_append, List.dropWhile_cons, if_pos h] at hx
      have hle : ((t ++ z).dropWhile p).length ≤ (t ++ z).length :=
        (List.dropWhile_sublist p).length_le
      rw [hx] at hle
      simp at hle
    · simp [List.dropWhile_cons, h]

theorem dropWhile_suffix (p : Char → Bool) (l : List Char) :
    l.dropWhile p <:+ l := by
  induction l with
  | nil => exact List.suffix_refl _
  | cons a t ih =>
    by_cases h : p a
    · rw [List.dropWhile_cons, if_pos h]
      exact ih.trans (List.suffix_cons a t)
    · rw [List.dropWhile_cons, if_neg h]

theorem trimBy_idem (p : Char → Bool) (l : List Char) :
    trimBy p (trimBy p l) = trimBy p l := by
  have hxfix : (l.dropWhile p).dropWhile p = l.dropWhile p := dropWhile_idem p l
  have hpre : trimBy p l <+: l.dropWhile p := by
    rw [← List.reverse_suffix]
    show (((l.dropWhile p).reverse.dropWhile p).reverse).reverse <:+ _
    rw [List.reverse_reverse]
    exact dropWhile_suffix p _
  have htfix : (trimBy p l).dropWhile p = trimBy p l :=
    dropWhile_eq_self_of_prefix p hpre hxfix
  have hrev : (trimBy p l).reverse = (l.dropWhile p).reverse.dropWhile p :=
    List.reverse_reverse _
  show (((trimBy p l).dropWhile p).reverse.dropWhile p).reverse = trimBy p l
  rw [htfix, hrev, dropWhile_idem]
  rfl

theorem trimBy_eq_self (p : Char → Bool) (l : List Char)
    (h : ∀ c ∈ l, p c = false) : trimBy p l = l := by
  have h1 : ∀ m : List Char, (∀ c ∈ m, p c = false) → m.dropWhile p = m := by
    intro m hm
    cases m with
    | nil => rfl
    | cons a t =>
      rw [List.dropWhile_cons, if_neg]
      simp [hm a (List.mem_cons_self a t)]
  unfold trimBy
  rw [h1 l h, h1 l.reverse (fun c hc => h c (List.mem_reverse.1 hc)),
    List.reverse_reverse]

theorem mem_trimBy (p : Char → Bool) {c : Char} {l : List Char}
    (h : c ∈ trimBy p l) : c ∈ l := by
  unfold trimBy at h
  have h2 := List.mem_reverse.1 h
  have h3 := (List.dropWhile_sublist p).mem h2
  have h4 := List.mem_reverse.1 h3
  exact (List.dropWhile_sublist p).mem h4

theorem rx1_eq_self {l : List Char} (h : ∀ c ∈ l, c ≠ '(') : rx1 l = l := by
  cases l with
  | nil => rfl
  | cons a t => simp [rx1, h a (List.mem_cons_self a t)]

theorem rx2rev_eq_self {l : List Char} (h : ∀ c ∈ l, c ≠ ')') :
    rx2rev l = l := by
  cases l with
  | nil => rfl
  | cons a t =>
    have ha : a ≠ ')' := h a (List.mem_cons_self a t)
    by_cases hn : a = '\n'
    · cases t with
      | nil => simp [rx2rev, ha, hn]
      | cons d r =>
        have hd : d ≠ ')' := h d (by simp)
        simp [rx2rev, ha, hn, hd]
    · simp [rx2rev, ha, hn]

theorem rx2_eq_self {l : List Char} (h : ∀ c ∈ l, c ≠ ')') : rx2 l = l := by
  unfold rx2
  rw [rx2rev_eq_self (fun c hc => h c (List.mem_reverse.1 hc)),
    List.reverse_reverse]

theorem rx3core_eq_self {l : List Char} (h : ',' ∉ l) : rx3core l = l := by
  have hnil : l.reverse.dropWhile (fun c => c != ',') = [] := by
    rw [List.dropWhile_eq_nil_iff]
    intro x hx
    have : x ≠ ',' := fun he => h (he ▸ List.mem_reverse.1 hx)
    simpa using this
  simp [rx3core, hnil]

theorem rx3_eq_self {l : List Char} (h : ',' ∉ l) : rx3 l = l := by
  rcases hrev : l.reverse with _ | ⟨c, r⟩
  · have hl : l = [] := by simpa using congrArg List.reverse hrev
    subst hl
    rfl
  · have hl : l = r.reverse ++ [c] := by
      have h2 := congrArg List.reverse hrev
      rwa [List.reverse_reverse, List.reverse_cons] at h2
    unfold rx3
    rw [hrev]
    show (if c = '\n' then rx3core r.reverse ++ ['\n'] else rx3core l) = l
    by_cases hc : c = '\n'
    · rw [if_pos hc]
      have hr : ',' ∉ r.reverse := fun hm =>
        h (hl ▸ List.mem_append_left [c] hm)
      rw [rx3core_eq_self hr, ← hc, ← hl]
    · rw [if_neg hc]
      exact rx3core_eq_self h

theorem cleanText_plain_eq {l : List Char}
    (h : ∀ c ∈ l, c ≠ '(' ∧ c ≠ ')' ∧ c ≠ '"' ∧ c ≠ ',') :
    cleanText (String.mk l) = String.mk (trimBy pyWs l) := by
  unfold cleanText
  show String.mk (trimBy _ (trimBy pyWs (rx3 (rx2 (rx1 l))))) = _
  rw [rx1_eq_self (fun c hc => (h c hc).1),
    rx2_eq_self (fun c hc => (h c hc).2.1),
    rx3_eq_self (fun hm => (h ',' hm).2.2.2 rfl),
    trimBy_eq_self _ (trimBy pyWs l) (fun c hc => by
      simp [(h c (mem_trimBy pyWs hc)).2.2.1])]

/-- C1 (amended): `clean` is not idempotent on all text, but it is
idempotent on every string containing no parenthesis, double-quote, or
comma character — there a single application only strips surrounding
whitespace. -/
theorem clean_idempotent_plain (s : String)
    (h : ∀ c ∈ s.data, c ≠ '(' ∧ c ≠ ')' ∧ c ≠ '"' ∧ c ≠ ',') :
    cleanText (cleanText s) = cleanText s := by
  have h0 : cleanText s = String.mk (trimBy pyWs s.data) := cleanText_plain_eq h
  have h1 : ∀ c ∈ trimBy pyWs s.data,
      c ≠ '(' ∧ c ≠ ')' ∧ c ≠ '"' ∧ c ≠ ',' :=
    fun c hc => h c (mem_trimBy pyWs hc)
  rw [h0, cleanText_plain_eq h1, trimBy_idem]

/-- C1, witness: the amended idempotence theorem applied at a concrete
plain string. -/
theorem clean_idempotent_plain_witness :
    cleanText (cleanText "Infectious diseases") = cleanText "Infectious diseases" :=
  clean_idempotent_plain "Infectious diseases" (by decide)

/-- C1, counterexample: `clean` is not idempotent as claimed — on "a))" one
application removes a single trailing parenthesis (the `$`-anchored
`_rx_tuple2` matches once), so a second application changes the value
again. -/
theorem clean_not_idempotent_cex :
    cleanText "a))" = "a)" ∧ cleanText (cleanText "a))") = "a" ∧
      cleanText (cleanText "a))") ≠ cleanText "a))" := by decide

/-! ### Header-row location -/

theorem find?_range'_eq_some (p : Nat → Bool) :
    ∀ n s i, (List.range' s n).find? p = some i ↔
      (s ≤ i ∧ i < s + n ∧ p i = true ∧
        ∀ j, s ≤ j → j < i → p j = false) := by
  intro n
  induction n with
  | zero =>
    intro s i
    constructor
    · intro h
      simp [List.range'] at h
    · rintro ⟨h1, h2, _, _⟩
      omega
  | succ m ih =>
    intro s i
    rw [List.range'_succ, List.find?_cons]
    cases hp : p s with
    | true =>
      simp only
      constructor
      · intro h
        have hi : i = s := by
          have := Option.some.inj h
          omega
        subst hi
        exact ⟨Nat.le_refl i, by omega, hp, fun j h1 h2 => by omega⟩
      · rintro ⟨h1, h2, h3, h4⟩
        have hi : i = s := by
          by_contra hne
          have hs : s < i := by omega
          have := h4 s (Nat.le_refl s) hs
          rw [hp] at this
          simp at this
        subst hi
        rfl
    | false =>
      simp only
      rw [ih (s + 1) i]
      constructor
      · rintro ⟨h1, h2, h3, h4⟩
        exact ⟨by omega, by omega, h3, fun j hj1 hj2 => by
          rcases Nat.eq_or_lt_of_le hj1 with he | hl
          · exact he ▸ hp
          · exact h4 j (by omega) hj2⟩
      · rintro ⟨h1, h2, h3, h4⟩
        have hi : i ≠ s := by
          intro he
          rw [he, hp] at h3
          simp at h3
        exact ⟨by omega, by omega, h3, fun j hj1 hj2 => h4 j (by omega) hj2⟩

/-- C5: `_header_row` returns the smallest row index `i < 40` inside the
grid whose row has at least 2 cells normalising to a state code, and `none`
when no row among the first 40 qualifies (so codes first appearing at row
40 or later are never found). -/
theorem headerRow_spec (g : List (List Cell)) :
    (∀ i, headerRow g = some i ↔
      i < 40 ∧ i < g.length ∧ 2 ≤ rowStateCount (g.getD i []) ∧
        ∀ j, j < i → rowStateCount (g.getD j []) < 2) ∧
    (headerRow g = none ↔
      ∀ i, i < 40 → i < g.length → rowStateCount (g.getD i []) < 2) := by
  constructor
  · intro i
    unfold headerRow
    rw [List.range_eq_range', find?_range'_eq_some]
    constructor
    · rintro ⟨_, h2, h3, h4⟩
      refine ⟨by omega, by omega, by simpa using h3, fun j hj => ?_⟩
      have := h4 j (Nat.zero_le j) hj
      simpa using this
    · rintro ⟨h1, h2, h3, h4⟩
      refine ⟨Nat.zero_le i, by omega, by simpa using h3, fun j _ hj => ?_⟩
      have := h4 j hj
      simpa using this
  · unfold headerRow
    rw [List.find?_eq_none]
    constructor
    · intro h i h1 h2
      have := h i (by rw [List.mem_range]; omega)
      simpa using this
    · intro h i hi
      rw [List.mem_range] at hi
      have := h i (by omega) (by omega)
      simpa using this

/-- C5, witness: a 41-row grid whose only state-code row is row index 40 —
outside the scanned window — yields `none`. -/
theorem headerRow_spec_witness :
    headerRow (List.replicate 40 [Cell.str "x"] ++
      [[Cell.str "NSW", Cell.str "VIC"]]) = none :=
  (headerRow_spec _).2.mpr (by decide)

/-! ### parse_sheet control flow and the melt -/

/-- C8: `parse_sheet` returns an empty result (`none`) rather than raising
when the sheet is structurally unusable — no header row located, or (after
classification, with the `total` column dropped) fewer than 2 state columns
or no dimension columns — and otherwise returns the melted records. -/
theorem parseSheet_unusable (grid : List (List Cell)) (year : Int) :
    (headerRow grid = none → parseSheet grid year = none) ∧
    (∀ h, headerRow grid = some h →
      ((classifySheet grid h).1.length < 2 ∨ (classifySheet grid h).2 = []) →
      parseSheet grid year = none) ∧
    (∀ h, headerRow grid = some h →
      2 ≤ (classifySheet grid h).1.length → (classifySheet grid h).2 ≠ [] →
      parseSheet grid year =
        some (emit grid
          ⟨h, (classifySheet grid h).1, (classifySheet grid h).2⟩ year)) := by
  refine ⟨?_, ?_, ?_⟩
  · intro h0
    unfold parseSheet planSheet
    rw [h0]
    rfl
  · intro h hh hcond
    unfold parseSheet planSheet
    rw [hh]
    simp only [if_pos hcond]
    rfl
  · intro h hh h1 h2
    unfold parseSheet planSheet
    rw [hh]
    show Option.map (fun p => emit grid p year)
      (if (classifySheet grid h).1.length < 2 ∨ (classifySheet grid h).2 = []
       then none
       else some ⟨h, (classifySheet grid h).1, (classifySheet grid h).2⟩) =
      some (emit grid ⟨h, (classifySheet grid h).1, (classifySheet grid h).2⟩
        year)
    rw [if_neg]
    · rfl
    · rintro (hlt | hnil)
      · omega
      · exact h2 hnil

/-- C8, witness: a sheet with no locatable header row parses to `none`. -/
theorem parseSheet_unusable_witness :
    parseSheet [[Cell.str "zz"], [Cell.str "title"]] 2023 = none :=
  (parseSheet_unusable _ 2023).1 (by decide)

theorem length_filterMap_eq_length_filter {α β : Type} (f : α → Option β)
    (l : List α) :
    (l.filterMap f).length = (l.filter (fun a => (f a).isSome)).length := by
  induction l with
  | nil => rfl
  | cons a t ih =>
    cases hf : f a <;>
      simp [List.filterMap_cons, hf, List.filter_cons, ih]

theorem mem_emit {grid : List (List Cell)} {p : SheetPlan} {year : Int}
    {rec : TidyRecord} :
    rec ∈ emit grid p year ↔
      ∃ sc ∈ p.stateCols, ∃ r ∈ keptRows grid p, ∃ v,
        toNumeric (r.getD sc.2 Cell.nan) = some v ∧
        rec = { year := year, state := sc.1, dims := dimsOfRow p r,
                separations := v } := by
  unfold emit
  rw [List.mem_flatMap]
  constructor
  · rintro ⟨sc, hsc, hrec⟩
    rw [List.mem_filterMap] at hrec
    obtain ⟨r, hr, hfr⟩ := hrec
    rw [Option.map_eq_some'] at hfr
    obtain ⟨v, hv, hrec⟩ := hfr
    exact ⟨sc, hsc, r, hr, v, hv, hrec.symm⟩
  · rintro ⟨sc, hsc, r, hr, v, hv, rfl⟩
    exact ⟨sc, hsc, List.mem_filterMap.2 ⟨r, hr, by rw [hv]; rfl⟩⟩

/-- C2 (amended): `parse_sheet` drops exactly the data rows whose
first-dimension cell is null (NaN): such rows contribute no record, while
every row with a non-null first-dimension cell — including blank or
whitespace-only text, which `dropna` does not remove — contributes a record
for each state column whose cell coerces. -/
theorem parseSheet_first_dim_null (grid : List (List Cell)) (year : Int)
    (p : SheetPlan) (hp : planSheet grid = some p) :
    parseSheet grid year = some (emit grid p year) ∧
    (∀ rec ∈ emit grid p year, ∃ r ∈ grid.drop (p.hdr + 1),
      r.getD (firstDimIdx p) Cell.nan ≠ Cell.nan ∧
      rec.dims = dimsOfRow p r) ∧
    (∀ r ∈ grid.drop (p.hdr + 1),
      r.getD (firstDimIdx p) Cell.nan ≠ Cell.nan →
      ∀ sc ∈ p.stateCols, ∀ v, toNumeric (r.getD sc.2 Cell.nan) = some v →
        ({ year := year, state := sc.1, dims := dimsOfRow p r,
           separations := v } : TidyRecord) ∈ emit grid p year) := by
  refine ⟨by unfold parseSheet; rw [hp]; rfl, ?_, ?_⟩
  · intro rec hrec
    obtain ⟨sc, hsc, r, hr, v, hv, rfl⟩ := mem_emit.1 hrec
    unfold keptRows at hr
    rw [List.mem_filter] at hr
    exact ⟨r, hr.1, by simpa using hr.2, rfl⟩
  · intro r hr hnn sc hsc v hv
    refine mem_emit.2 ⟨sc, hsc, r, ?_, v, hv, rfl⟩
    unfold keptRows
    rw [List.mem_filter]
    exact ⟨hr, by simpa using hnn⟩

/-- C2, witness: the amended theorem applied at a concrete sheet. -/
theorem parseSheet_first_dim_null_witness :
    parseSheet [[Cell.str "Category", Cell.str "NSW", Cell.str "VIC"],
      [Cell.nan, Cell.num 9, Cell.num 9], [Cell.str "A", Cell.num 1, Cell.num 2]]
      2023 =
    some (emit [[Cell.str "Category", Cell.str "NSW", Cell.str "VIC"],
      [Cell.nan, Cell.num 9, Cell.num 9], [Cell.str "A", Cell.num 1, Cell.num 2]]
      ⟨0, [("NSW", 1), ("VIC", 2)], [("category", 0)]⟩ 2023) :=
  (parseSheet_first_dim_null _ 2023 _ (by decide)).1

/-- C2, counterexample: a data row whose first-dimension cell is the blank
text " " is not dropped — it yields TidyRecords (with its category cleaned
to ""), refuting the claim that blank rows contribute no records. -/
theorem parseSheet_blank_kept_cex :
    parseSheet [[Cell.str "Category", Cell.str "NSW", Cell.str "VIC"],
      [Cell.str " ", Cell.num 3, Cell.num 4]] 2023 =
    some [⟨2023, "NSW", [("category", "")], 3⟩,
          ⟨2023, "VIC", [("category", "")], 4⟩] := by decide

/-- C4: a state-column cell that fails numeric coercion yields no long-form
record: the melt's length is exactly the number of (kept row, state column)
pairs whose cell coerces, and every emitted record's separations value is
the successfully coerced value of its source cell — never a substituted
zero. -/
theorem parseSheet_coercion (grid : List (List Cell)) (year : Int)
    (p : SheetPlan) (hp : planSheet grid = some p) :
    parseSheet grid year = some (emit grid p year) ∧
    (emit grid p year).length =
      (p.stateCols.map (fun sc => ((keptRows grid p).filter
        (fun r => (toNumeric (r.getD sc.2 Cell.nan)).isSome)).length)).sum ∧
    ∀ rec ∈ emit grid p year, ∃ sc ∈ p.stateCols, ∃ r ∈ keptRows grid p,
      rec.state = sc.1 ∧
      toNumeric (r.getD sc.2 Cell.nan) = some rec.separations := by
  refine ⟨by unfold parseSheet; rw [hp]; rfl, ?_, ?_⟩
  · unfold emit
    rw [List.length_flatMap]
    congr 1
    apply List.map_congr_left
    intro sc _
    show ((keptRows grid p).filterMap _).length = _
    rw [length_filterMap_eq_length_filter]
    apply congrArg
    apply List.filter_congr
    intro r _
    simp
  · intro rec hrec
    obtain ⟨sc, hsc, r, hr, v, hv, rfl⟩ := mem_emit.1 hrec
    exact ⟨sc, hsc, r, hr, rfl, hv⟩

/-- C4, witness: on the sheet with an uncoercible "n/a" cell, the melt has
exactly 3 records (2 coercible NSW cells, 1 coercible QLD cell). -/
theorem parseSheet_coercion_witness :
    (emit [[Cell.str "Category", Cell.str "NSW", Cell.str "QLD",
        Cell.str "Total"],
      [Cell.str "Infectious", Cell.num 10, Cell.num 20, Cell.num 30],
      [Cell.str "Injury", Cell.num 5, Cell.str "n/a", Cell.num 5]]
      ⟨0, [("NSW", 1), ("QLD", 2)], [("category", 0)]⟩ 2023).length =
    ([("NSW", 1), ("QLD", 2)].map
      (fun sc : String × Nat =>
        ((keptRows [[Cell.str "Category", Cell.str "NSW", Cell.str "QLD",
            Cell.str "Total"],
          [Cell.str "Infectious", Cell.num 10, Cell.num 20, Cell.num 30],
          [Cell.str "Injury", Cell.num 5, Cell.str "n/a", Cell.num 5]]
          ⟨0, [("NSW", 1), ("QLD", 2)], [("category", 0)]⟩).filter
          (fun r => (toNumeric (r.getD sc.2 Cell.nan)).isSome)).length)).sum :=
  (parseSheet_coercion _ 2023 _ (by decide)).2.1

/-- C10: every dimension value of every emitted record is the cleaned text
(`_clean_text` after `astype(str)`) of the source cell — a non-null string
— and a missing (NaN) cell renders as the literal string "nan", which
cleaning leaves unchanged. -/
theorem parseSheet_dims_text (grid : List (List Cell)) (year : Int)
    (p : SheetPlan) (hp : planSheet grid = some p) :
    parseSheet grid year = some (emit grid p year) ∧
    (∀ rec ∈ emit grid p year, ∃ r ∈ keptRows grid p,
      rec.dims = p.idCols.map (fun ni =>
        (ni.1, cleanText (cellToStr (r.getD ni.2 Cell.nan))))) ∧
    cleanText (cellToStr Cell.nan) = "nan" := by
  refine ⟨by unfold parseSheet; rw [hp]; rfl, ?_, by decide⟩
  intro rec hrec
  obtain ⟨sc, hsc, r, hr, v, hv, rfl⟩ := mem_emit.1 hrec
  exact ⟨r, hr, rfl⟩

/-- C10, witness: a record from a sheet whose second dimension column has a
NaN cell carries the literal dimension value "nan". -/
theorem parseSheet_dims_text_witness :
    ∃ r ∈ keptRows [[Cell.str "Category", Cell.nan, Cell.str "NSW",
        Cell.str "VIC"],
      [Cell.str "A", Cell.nan, Cell.num 1, Cell.num 2]]
      ⟨0, [("NSW", 2), ("VIC", 3)],
        [("category", 0), ("principal_diagnosis", 1)]⟩,
      (⟨2023, "NSW", [("category", "A"), ("principal_diagnosis", "nan")],
        1⟩ : TidyRecord).dims =
        [("category", 0), ("principal_diagnosis", 1)].map
          (fun ni : String × Nat =>
            (ni.1, cleanText (cellToStr (r.getD ni.2 Cell.nan)))) :=
  (parseSheet_dims_text _ 2023 _ (by decide)).2.1 _ (by decide)

/-! ### compile_all -/

/-- C9: `compile_all` fails with the raised data-integrity error if and
only if zero usable (non-empty) sheet results were produced across all
workbook sources, and otherwise returns the concatenation of all per-sheet
results without raising. -/
theorem compileAll_empty (srcs : List Source) :
    ((∃ e, compileAll srcs = .error e) ↔ usableFrames srcs = []) ∧
    (usableFrames srcs = [] ↔
      ∀ src ∈ srcs, ∀ sh ∈ src.sheets, tableMatch sh.1 = true →
        ∀ recs, parseSheet sh.2 (yearOf src.url) = some recs → recs = []) ∧
    (usableFrames srcs ≠ [] →
      compileAll srcs = .ok (usableFrames srcs).flatten) := by
  refine ⟨?_, ?_, ?_⟩
  · constructor
    · rintro ⟨e, he⟩
      unfold compileAll at he
      by_cases hu : usableFrames srcs = []
      · exact hu
      · rw [if_neg hu] at he
        exact absurd he (by simp)
    · intro hu
      exact ⟨_, by unfold compileAll; rw [if_pos hu]⟩
  · unfold usableFrames
    rw [List.flatMap_eq_nil_iff]
    constructor
    · intro hall src hsrc sh hsh htm recs hps
      have h1 := hall src hsrc
      rw [List.filterMap_eq_nil_iff] at h1
      have h2 := h1 sh (List.mem_filter.2 ⟨hsh, htm⟩)
      rw [hps] at h2
      by_contra hne
      simp [hne] at h2
    · intro hall src hsrc
      rw [List.filterMap_eq_nil_iff]
      intro sh hsh
      rw [List.mem_filter] at hsh
      cases hps : parseSheet sh.2 (yearOf src.url) with
      | none => simp [hps]
      | some recs =>
        have hr := hall src hsrc sh hsh.1 hsh.2 recs hps
        simp [hps, hr]
  · intro hu
    unfold compileAll
    rw [if_neg hu]

/-- C9, witness: a source whose only eligible sheet is unusable makes
compilation fail with the error. -/
theorem compileAll_empty_witness :
    ∃ e, compileAll [⟨"x-2022-23",
      [("Table 4", [[Cell.str "junk"]])]⟩] = .error e :=
  (compileAll_empty _).1.mpr (by decide)

/-! ### The aggregation reducer -/

theorem mem_dedupByAux {α β : Type} [DecidableEq β] (f : α → β) :
    ∀ (l : List α) (seen : List β) (x : α),
      x ∈ dedupByAux f seen l → x ∈ l := by
  intro l
  induction l with
  | nil => intro seen x h; exact absurd h (List.not_mem_nil x)
  | cons a t ih =>
    intro seen x h
    unfold dedupByAux at h
    by_cases hs : f a ∈ seen
    · rw [if_pos hs] at h
      exact List.mem_cons_of_mem a (ih _ x h)
    · rw [if_neg hs] at h
      rcases List.mem_cons.1 h with rfl | hm
      · exact List.mem_cons_self _ _
      · exact List.mem_cons_of_mem a (ih _ x hm)

theorem nodup_map_dedupByAux {α β : Type} [DecidableEq β] (f : α → β) :
    ∀ (l : List α) (seen : List β),
      ((dedupByAux f seen l).map f).Nodup ∧
      ∀ x ∈ dedupByAux f seen l, f x ∉ seen := by
  intro l
  induction l with
  | nil =>
    intro seen
    exact ⟨List.nodup_nil, fun x h => absurd h (List.not_mem_nil x)⟩
  | cons a t ih =>
    intro seen
    unfold dedupByAux
    by_cases hs : f a ∈ seen
    · rw [if_pos hs]
      exact ih seen
    · rw [if_neg hs]
      obtain ⟨ihn, ihs⟩ := ih (f a :: seen)
      refine ⟨?_, ?_⟩
      · rw [List.map_cons, List.nodup_cons]
        refine ⟨fun hmem => ?_, ihn⟩
        rw [List.mem_map] at hmem
        obtain ⟨y, hy, hfy⟩ := hmem
        exact ihs y hy (hfy ▸ List.mem_cons_self _ _)
      · intro x hx
        rcases List.mem_cons.1 hx with rfl | hm
        · exact hs
        · exact fun hxs => ihs x hm (List.mem_cons_of_mem _ hxs)

theorem dedupByAux_eq_self {α β : Type} [DecidableEq β] (f : α → β) :
    ∀ (l : List α) (seen : List β), (l.map f).Nodup →
      (∀ x ∈ l, f x ∉ seen) → dedupByAux f seen l = l := by
  intro l
  induction l with
  | nil => intro seen _ _; rfl
  | cons a t ih =>
    intro seen hnd hns
    unfold dedupByAux
    rw [if_neg (hns a (List.mem_cons_self a t))]
    congr 1
    rw [List.map_cons, List.nodup_cons] at hnd
    apply ih _ hnd.2
    intro x hx hmem
    rcases List.mem_cons.1 hmem with he | hseen
    · exact hnd.1 (he ▸ List.mem_map_of_mem f hx)
    · exact hns x (List.mem_cons_of_mem a hx) hseen

theorem map_getD_range {α : Type} (l : List α) (d : α) :
    (List.range l.length).map (fun j => l.getD j d) = l := by
  induction l with
  | nil => rfl
  | cons a t ih =>
    rw [List.length_cons, List.range_succ_eq_map, List.map_cons]
    congr 1
    rw [List.map_map]
    have he : ((fun j => (a :: t).getD j d) ∘ Nat.succ) =
        fun j => t.getD j d := by
      funext j
      rfl
    rw [he, ih]

theorem getD_map_some {α : Type} (l : List α) (j : Nat) :
    (l.map some).getD j none = l[j]? := by
  rw [List.getD_eq_getElem?_getD, List.getElem?_map]
  cases l[j]? <;> rfl

theorem nodup_filter_eq_singleton {α : Type} [DecidableEq α] :
    ∀ (l : List α), l.Nodup → ∀ k ∈ l,
      l.filter (fun x => decide (x = k)) = [k] := by
  intro l
  induction l with
  | nil => intro _ k hk; exact absurd hk (List.not_mem_nil k)
  | cons a t ih =>
    intro hnd k hk
    rw [List.nodup_cons] at hnd
    rcases List.mem_cons.1 hk with rfl | hm
    · rw [List.filter_cons, if_pos (by simp)]
      have ht : t.filter (fun x => decide (x = k)) = [] := by
        rw [List.filter_eq_nil_iff]
        intro x hx
        simp only [decide_eq_true_eq]
        exact fun he => hnd.1 (he ▸ hx)
      rw [ht]
    · rw [List.filter_cons, if_neg (by
        simp only [decide_eq_true_eq]
        exact fun he => hnd.1 (he ▸ hm))]
      exact ih hnd.2 k hm

theorem map_getD_map_some {α : Type} (l : List α) (d : α) :
    (l.map some).map (fun v => v.getD d) = l := by
  induction l with
  | nil => rfl
  | cons a t ih =>
    show a :: (t.map some).map _ = a :: t
    rw [ih]

theorem reduce_of_reduced (dc : List String)
    (ks : List (Int × String × List String))
    (f : (Int × String × List String) → Int)
    (hlen : ∀ k ∈ ks, k.2.2.length = dc.length) (hnd : ks.Nodup)
    (hne : ks = [] → dc = []) :
    reduce ⟨dc, ks.map (fun k =>
      ⟨k.1, k.2.1, k.2.2.map some, f k⟩)⟩ =
    ⟨dc, ks.map (fun k => ⟨k.1, k.2.1, k.2.2.map some, f k⟩)⟩ := by
  cases hks : ks with
  | nil =>
    rw [hne hks]
    rfl
  | cons k0 ks' =>
    subst hks
    set mk : (Int × String × List String) → URow :=
      fun k => ⟨k.1, k.2.1, k.2.2.map some, f k⟩ with hmk
    set u : UTable := ⟨dc, (k0 :: ks').map mk⟩ with hu
    have hcatsu : catIdxs u = List.range dc.length := by
      show (List.range dc.length).filter _ = List.range dc.length
      rw [List.filter_eq_self]
      intro j hj
      rw [List.mem_range] at hj
      show ((k0 :: ks').map mk).any
        (fun r => (r.dims.getD j none).isSome) = true
      rw [List.map_cons, List.any_cons]
      have h0 : ((mk k0).dims.getD j none).isSome = true := by
        show ((k0.2.2.map some).getD j none).isSome = true
        rw [getD_map_some]
        rw [List.getElem?_eq_getElem
          (by rw [hlen k0 (List.mem_cons_self _ _)]; exact hj)]
        rfl
      rw [h0]
      rfl
    have hkeymk : ∀ k ∈ k0 :: ks', keyOf (catIdxs u) (mk k) = k := by
      intro k hk
      rw [hcatsu]
      show (k.1, k.2.1, (List.range dc.length).map
        (fun j => ((k.2.2.map some).getD j none).getD "")) = k
      have h3 : (List.range dc.length).map
          (fun j => ((k.2.2.map some).getD j none).getD "") = k.2.2 := by
        rw [← hlen k hk]
        have hpt : ∀ j, ((k.2.2.map some).getD j none).getD "" =
            k.2.2.getD j "" := by
          intro j
          rw [getD_map_some, List.getD_eq_getElem?_getD]
        have hstep : (List.range k.2.2.length).map
            (fun j => ((k.2.2.map some).getD j none).getD "") =
            (List.range k.2.2.length).map (fun j => k.2.2.getD j "") :=
          List.map_congr_left (fun j _ => hpt j)
        rw [hstep, map_getD_range]
      rw [h3]
    have hmaprows : u.rows.map (keyOf (catIdxs u)) = k0 :: ks' := by
      show ((k0 :: ks').map mk).map (keyOf (catIdxs u)) = k0 :: ks'
      rw [List.map_map]
      calc (k0 :: ks').map (keyOf (catIdxs u) ∘ mk)
          = (k0 :: ks').map id := List.map_congr_left (fun k hk => hkeymk k hk)
        _ = k0 :: ks' := List.map_id _
    have hdedup : dedupBy id (u.rows.map (keyOf (catIdxs u))) = k0 :: ks' := by
      rw [hmaprows]
      apply dedupByAux_eq_self
      · rwa [List.map_id]
      · intro x _ hx
        exact absurd hx (List.not_mem_nil _)
    have hfilter : ∀ k ∈ k0 :: ks',
        u.rows.filter (fun r => decide (keyOf (catIdxs u) r = k)) =
          [mk k] := by
      intro k hk
      show ((k0 :: ks').map mk).filter _ = [mk k]
      rw [List.filter_map]
      have hcg : (k0 :: ks').filter
          ((fun r => decide (keyOf (catIdxs u) r = k)) ∘ mk) =
          (k0 :: ks').filter (fun x => decide (x = k)) :=
        List.filter_congr (fun x hx => by
          show decide (keyOf (catIdxs u) (mk x) = k) = decide (x = k)
          rw [hkeymk x hx])
      rw [hcg, nodup_filter_eq_singleton _ hnd k hk]
      rfl
    rw [hcatsu] at hdedup hfilter
    show UTable.mk ((catIdxs u).map (fun j => u.dimCols.getD j ""))
      ((dedupBy id (u.rows.map (keyOf (catIdxs u)))).map (fun k =>
        ⟨k.1, k.2.1, k.2.2.map some,
          ((u.rows.filter (fun r =>
            decide (keyOf (catIdxs u) r = k))).map URow.seps).sum⟩)) =
      UTable.mk dc ((k0 :: ks').map mk)
    rw [hcatsu, hdedup]
    have hdc : (List.range dc.length).map (fun j => u.dimCols.getD j "") =
        dc := map_getD_range dc ""
    rw [hdc]
    have hrows : (k0 :: ks').map (fun k =>
        (⟨k.1, k.2.1, k.2.2.map some,
          ((u.rows.filter (fun r =>
            decide (keyOf (List.range dc.length) r = k))).map
              URow.seps).sum⟩ : URow)) =
        (k0 :: ks').map mk := by
      apply List.map_congr_left
      intro k hk
      rw [hfilter k hk]
      show (⟨k.1, k.2.1, k.2.2.map some,
        ([mk k].map URow.seps).sum⟩ : URow) = mk k
      rw [List.map_cons, List.map_nil, List.sum_cons, List.sum_nil, add_zero]
    rw [hrows]

theorem nodup_reduced_keys
    (ks : List (Int × String × List String))
    (f : (Int × String × List String) → Int) (hnd : ks.Nodup) :
    ((ks.map (fun k => (⟨k.1, k.2.1, k.2.2.map some, f k⟩ : URow))).map
      (fun r => (r.year, r.state, r.dims))).Nodup := by
  rw [List.map_map]
  have hcomp : ((fun r : URow => (r.year, r.state, r.dims)) ∘
      (fun k : Int × String × List String =>
        (⟨k.1, k.2.1, k.2.2.map some, f k⟩ : URow))) =
      fun k : Int × String × List String =>
        (k.1, k.2.1, k.2.2.map some) := rfl
  rw [hcomp]
  apply List.Nodup.map _ hnd
  rintro ⟨y1, s1, d1⟩ ⟨y2, s2, d2⟩ h
  rw [Prod.ext_iff, Prod.ext_iff] at h
  obtain ⟨h1, h2, h3⟩ := h
  have hd : d1 = d2 := by
    have h4 := congrArg (List.map (fun o : Option String => o.getD "")) h3
    rwa [map_getD_map_some, map_getD_map_some] at h4
  simp_all

/-- C6: the aggregation step `reduce` is idempotent — re-applying it to its
own output yields an identical table — and its output contains no two rows
sharing the same (year, state, dimension-values) tuple. -/
theorem reduce_idempotent (t : UTable) :
    reduce (reduce t) = reduce t ∧
    ((reduce t).rows.map (fun r => (r.year, r.state, r.dims))).Nodup := by
  have hlen : ∀ k ∈ dedupBy id (t.rows.map (keyOf (catIdxs t))),
      k.2.2.length =
        ((catIdxs t).map (fun j => t.dimCols.getD j "")).length := by
    intro k hk
    have hk2 := mem_dedupByAux id _ [] k hk
    rw [List.mem_map] at hk2
    obtain ⟨r, _, rfl⟩ := hk2
    simp [keyOf]
  have hnd : (dedupBy id (t.rows.map (keyOf (catIdxs t)))).Nodup := by
    have h := (nodup_map_dedupByAux id (t.rows.map (keyOf (catIdxs t))) []).1
    rwa [List.map_id] at h
  have hne : dedupBy id (t.rows.map (keyOf (catIdxs t))) = [] →
      (catIdxs t).map (fun j => t.dimCols.getD j "") = [] := by
    intro h
    cases ht : t.rows with
    | nil => simp [catIdxs, ht]
    | cons r rs =>
      rw [ht] at h
      simp [dedupBy, dedupByAux] at h
  have hform : reduce t = ⟨(catIdxs t).map (fun j => t.dimCols.getD j ""),
      (dedupBy id (t.rows.map (keyOf (catIdxs t)))).map (fun k =>
        ⟨k.1, k.2.1, k.2.2.map some,
          ((t.rows.filter (fun r =>
            decide (keyOf (catIdxs t) r = k))).map URow.seps).sum⟩)⟩ := rfl
  constructor
  · rw [hform]
    exact reduce_of_reduced
      ((catIdxs t).map (fun j => t.dimCols.getD j ""))
      (dedupBy id (t.rows.map (keyOf (catIdxs t))))
      (fun k => ((t.rows.filter (fun r =>
        decide (keyOf (catIdxs t) r = k))).map URow.seps).sum)
      hlen hnd hne
  · rw [hform]
    exact nodup_reduced_keys
      (dedupBy id (t.rows.map (keyOf (catIdxs t))))
      (fun k => ((t.rows.filter (fun r =>
        decide (keyOf (catIdxs t) r = k))).map URow.seps).sum) hnd

/-- C7 (amended): `reduce` groups on exactly the non-key columns that
contain at least one non-null value (`df[c].notna().any()`), fills missing
values in those columns with "", and sums separations per (year, state,
dimension values) group: every output row has only non-null dimension
values, corresponds to the key of at least one input row, and carries the
sum of the separations of exactly the input rows with its (filled) key. -/
theorem reduce_grouping (t : UTable) :
    (reduce t).dimCols =
      ((List.range t.dimCols.length).filter (fun j =>
        t.rows.any (fun r => (r.dims.getD j none).isSome))).map
        (fun j => t.dimCols.getD j "") ∧
    ∀ row ∈ (reduce t).rows,
      (∀ v ∈ row.dims, v.isSome = true) ∧
      (∃ r ∈ t.rows, keyOf (catIdxs t) r =
        (row.year, row.state, row.dims.map (fun v => v.getD ""))) ∧
      row.seps = ((t.rows.filter (fun r => decide (keyOf (catIdxs t) r =
        (row.year, row.state, row.dims.map (fun v => v.getD ""))))).map
          URow.seps).sum := by
  constructor
  · rfl
  · intro row hrow
    have hrow2 : row ∈ (dedupBy id (t.rows.map (keyOf (catIdxs t)))).map
        (fun k => (⟨k.1, k.2.1, k.2.2.map some,
          ((t.rows.filter (fun r =>
            decide (keyOf (catIdxs t) r = k))).map URow.seps).sum⟩ :
              URow)) := hrow
    rw [List.mem_map] at hrow2
    obtain ⟨k, hk, rfl⟩ := hrow2
    have hkey : (k.2.2.map some).map (fun v => v.getD "") = k.2.2 :=
      map_getD_map_some k.2.2 ""
    refine ⟨?_, ?_, ?_⟩
    · intro v hv
      rw [List.mem_map] at hv
      obtain ⟨x, _, rfl⟩ := hv
      rfl
    · have hk2 := mem_dedupByAux id _ [] k hk
      rw [List.mem_map] at hk2
      obtain ⟨r, hr, he⟩ := hk2
      refine ⟨r, hr, ?_⟩
      show keyOf (catIdxs t) r =
        (k.1, k.2.1, (k.2.2.map some).map (fun v => v.getD ""))
      rw [hkey]
      exact he
    · show ((t.rows.filter (fun r =>
        decide (keyOf (catIdxs t) r = k))).map URow.seps).sum =
        ((t.rows.filter (fun r => decide (keyOf (catIdxs t) r =
          (k.1, k.2.1, (k.2.2.map some).map (fun v => v.getD ""))))).map
            URow.seps).sum
      rw [hkey]

/-- C7, witness: the amended grouping theorem applied at a concrete table
and output row (two input rows collapse to one summed group row). -/
theorem reduce_grouping_witness :
    (∀ v ∈ (⟨2023, "NSW", [some "x"], 12⟩ : URow).dims, v.isSome = true) ∧
    (∃ r ∈ wtable7.rows, keyOf (catIdxs wtable7) r =
      (2023, "NSW", [some "x"].map (fun v => v.getD ""))) ∧
    (12 : Int) = ((wtable7.rows.filter
      (fun r => decide (keyOf (catIdxs wtable7) r =
        (2023, "NSW", [some "x"].map (fun v => v.getD ""))))).map
          URow.seps).sum :=
  (reduce_grouping wtable7).2 ⟨2023, "NSW", [some "x"], 12⟩ (by decide)

/-- C7, counterexample: an all-null dimension column ("note") is not used
as a grouping column at all — `reduce` drops it instead of filling it with
"" and grouping on it, refuting "uses exactly the columns other than year,
state and separations". -/
theorem reduce_grouping_cex :
    (reduce ⟨["note"], [⟨2023, "NSW", [none], 5⟩]⟩).dimCols = [] ∧
    (reduce ⟨["note"], [⟨2023, "NSW", [none], 5⟩]⟩).dimCols ≠ ["note"] ∧
    (reduce ⟨["note"], [⟨2023, "NSW", [none], 5⟩]⟩).rows =
      [⟨2023, "NSW", [], 5⟩] := by decide

/-! ### Positional renaming of anonymous dimension columns -/

theorem bool_eq_of_iff {a b : Bool} (h : (a = true) ↔ (b = true)) :
    a = b := by
  cases a <;> cases b <;> simp_all

theorem principalTaken_iff (states : List String)
    (done pending : List (String × Nat)) :
    principalTaken states done pending = true ↔
      ("principal_diagnosis" ∈ states ∨
       "principal_diagnosis" ∈ done.map Prod.fst ∨
       "principal_diagnosis" ∈ pending.map Prod.fst) := by
  simp [principalTaken]
  exact or_assoc

theorem anon_ne_principal {n : String}
    (h : pyStartsWith "unnamed" n = true) : n ≠ "principal_diagnosis" := by
  intro he
  rw [he] at h
  exact absurd h (by decide)

theorem anonLoop_eq (states : List String) :
    ∀ (pending done : List (String × Nat)) (i0 : Nat),
      anonLoop states done i0 pending =
        done ++
          renameRule (principalTaken states done pending) i0 pending := by
  intro pending
  induction pending with
  | nil =>
    intro done i0
    simp [anonLoop, renameRule]
  | cons hd rest ih =>
    rcases hd with ⟨n, ci⟩
    intro done i0
    by_cases han : pyStartsWith "unnamed" n = true
    · by_cases hpt : principalTaken states done ((n, ci) :: rest) = true
      · rw [show anonLoop states done i0 ((n, ci) :: rest) =
            anonLoop states
              (done ++ [("dimension_" ++ toString i0, ci)]) (i0 + 1) rest by
          simp [anonLoop, han, hpt]]
        rw [ih]
        have htk : principalTaken states
            (done ++ [("dimension_" ++ toString i0, ci)]) rest = true := by
          rw [principalTaken_iff]
          rcases (principalTaken_iff states done ((n, ci) :: rest)).1 hpt with
            h | h | h
          · exact Or.inl h
          · refine Or.inr (Or.inl ?_)
            rw [List.map_append, List.mem_append]
            exact Or.inl h
          · rw [List.map_cons, List.mem_cons] at h
            rcases h with h | h
            · exact absurd h.symm (anon_ne_principal han)
            · exact Or.inr (Or.inr h)
        rw [htk]
        rw [show renameRule (principalTaken states done ((n, ci) :: rest)) i0
              ((n, ci) :: rest) =
            ("dimension_" ++ toString i0, ci) ::
              renameRule true (i0 + 1) rest by
          simp [renameRule, han, hpt]]
        rw [List.append_assoc]
        rfl
      · rw [show anonLoop states done i0 ((n, ci) :: rest) =
            anonLoop states
              (done ++ [("principal_diagnosis", ci)]) (i0 + 1) rest by
          simp [anonLoop, han, hpt]]
        rw [ih]
        have htk : principalTaken states
            (done ++ [("principal_diagnosis", ci)]) rest = true := by
          rw [principalTaken_iff]
          refine Or.inr (Or.inl ?_)
          rw [List.map_append, List.mem_append]
          right
          simp
        rw [htk]
        rw [show renameRule (principalTaken states done ((n, ci) :: rest)) i0
              ((n, ci) :: rest) =
            ("principal_diagnosis", ci) ::
              renameRule true (i0 + 1) rest by
          simp [renameRule, han, hpt]]
        rw [List.append_assoc]
        rfl
    · rw [show anonLoop states done i0 ((n, ci) :: rest) =
          anonLoop states (done ++ [(n, ci)]) (i0 + 1) rest by
        simp [anonLoop, han]]
      rw [ih]
      have htk : principalTaken states (done ++ [(n, ci)]) rest =
          principalTaken states done ((n, ci) :: rest) := by
        apply bool_eq_of_iff
        rw [principalTaken_iff, principalTaken_iff]
        rw [List.map_append, List.map_cons]
        simp only [List.mem_append, List.mem_cons, List.map_cons,
          List.map_nil, List.mem_singleton]
        tauto
      rw [htk]
      rw [show renameRule (principalTaken states done ((n, ci) :: rest)) i0
            ((n, ci) :: rest) =
          (n, ci) :: renameRule
            (principalTaken states done ((n, ci) :: rest)) (i0 + 1) rest by
        simp [renameRule, han]]
      rw [List.append_assoc]
      rfl

theorem renameRule_length :
    ∀ (pending : List (String × Nat)) (tk : Bool) (i0 : Nat),
      (renameRule tk i0 pending).length = pending.length := by
  intro pending
  induction pending with
  | nil => intro tk i0; rfl
  | cons hd rest ih =>
    rcases hd with ⟨n, ci⟩
    intro tk i0
    by_cases han : pyStartsWith "unnamed" n = true <;>
      simp [renameRule, han, ih]

theorem renameRule_getD :
    ∀ (pending : List (String × Nat)) (tk : Bool) (i0 m : Nat),
      m < pending.length →
      (renameRule tk i0 pending).getD m ("", 0) =
        (if pyStartsWith "unnamed" (pending.getD m ("", 0)).1 = true then
          (if tk = true ∨ ∃ k, k < m ∧
              pyStartsWith "unnamed" (pending.getD k ("", 0)).1 = true
           then ("dimension_" ++ toString (i0 + m),
             (pending.getD m ("", 0)).2)
           else ("principal_diagnosis", (pending.getD m ("", 0)).2))
        else pending.getD m ("", 0)) := by
  intro pending
  induction pending with
  | nil =>
    intro tk i0 m hm
    simp at hm
  | cons hd rest ih =>
    rcases hd with ⟨n, ci⟩
    intro tk i0 m hm
    by_cases han : pyStartsWith "unnamed" n = true
    · rw [show renameRule tk i0 ((n, ci) :: rest) =
          (if tk then ("dimension_" ++ toString i0, ci)
           else ("principal_diagnosis", ci)) ::
            renameRule true (i0 + 1) rest by simp [renameRule, han]]
      cases m with
      | zero =>
        simp only [List.getD_cons_zero, han, if_true]
        cases tk with
        | true =>
          show ("dimension_" ++ toString i0, ci) = _
          rw [if_pos (Or.inl rfl), Nat.add_zero]
        | false =>
          show ("principal_diagnosis", ci) = _
          rw [if_neg (by
            rintro (h | ⟨k, hk, _⟩)
            · simp at h
            · omega)]
      | succ m' =>
        rw [List.getD_cons_succ]
        rw [ih true (i0 + 1) m' (by simpa using hm)]
        simp only [List.getD_cons_succ]
        have hidx : i0 + 1 + m' = i0 + (m' + 1) := by omega
        by_cases hra : pyStartsWith "unnamed" (rest.getD m' ("", 0)).1 = true
        · rw [if_pos hra, if_pos hra]
          rw [if_pos (Or.inl True.intro)]
          rw [if_pos (Or.inr ⟨0, Nat.succ_pos m', by
            rw [List.getD_cons_zero]; exact han⟩)]
          rw [hidx]
        · rw [if_neg (by simpa using hra), if_neg (by simpa using hra)]
    · rw [show renameRule tk i0 ((n, ci) :: rest) =
          (n, ci) :: renameRule tk (i0 + 1) rest by simp [renameRule, han]]
      cases m with
      | zero =>
        simp only [List.getD_cons_zero]
        rw [if_neg (by simpa using han)]
      | succ m' =>
        rw [List.getD_cons_succ]
        rw [ih tk (i0 + 1) m' (by simpa using hm)]
        simp only [List.getD_cons_succ]
        have hidx : i0 + 1 + m' = i0 + (m' + 1) := by omega
        have hshift : (∃ k, k < m' + 1 ∧ pyStartsWith "unnamed"
            (((n, ci) :: rest).getD k ("", 0)).1 = true) ↔
            (∃ k, k < m' ∧ pyStartsWith "unnamed"
              (rest.getD k ("", 0)).1 = true) := by
          constructor
          · rintro ⟨k, hk, ha⟩
            cases k with
            | zero =>
              rw [List.getD_cons_zero] at ha
              exact absurd ha han
            | succ k' =>
              rw [List.getD_cons_succ] at ha
              exact ⟨k', by omega, ha⟩
          · rintro ⟨k, hk, ha⟩
            refine ⟨k + 1, by omega, ?_⟩
            rw [List.getD_cons_succ]
            exact ha
        simp only [hshift, hidx]

/-- C3 (amended): in column classification, the FIRST dimension column is
renamed to "category" exactly when its own name is anonymous (a later
anonymous column never becomes "category"); every anonymous dimension
column at a later position `i` is renamed to "principal_diagnosis" when no
column is yet named so — i.e. when that name is not among the state codes
or the original dimension names and no earlier (position ≥ 1) anonymous
column exists — and otherwise to "dimension_{i}"; named columns keep their
names. -/
theorem classify_rename_spec (states : List String)
    (idCols : List (String × Nat)) :
    ((renameAnon states (renameCategory idCols)).length = idCols.length) ∧
    (∀ p rest, idCols = p :: rest →
      (renameAnon states (renameCategory idCols)).getD 0 ("", 0) =
        (if pyStartsWith "unnamed" p.1 = true then ("category", p.2)
         else p)) ∧
    (∀ i, 1 ≤ i → i < idCols.length →
      (renameAnon states (renameCategory idCols)).getD i ("", 0) =
        (if pyStartsWith "unnamed" (idCols.getD i ("", 0)).1 = true then
          (if ("principal_diagnosis" ∈ states ∨
               (∃ q ∈ idCols, q.1 = "principal_diagnosis") ∨
               ∃ k, k < i ∧ 1 ≤ k ∧
                 pyStartsWith "unnamed" (idCols.getD k ("", 0)).1 = true)
           then ("dimension_" ++ toString i, (idCols.getD i ("", 0)).2)
           else ("principal_diagnosis", (idCols.getD i ("", 0)).2))
        else idCols.getD i ("", 0))) := by
  cases hic : idCols with
  | nil =>
    refine ⟨rfl, ?_, ?_⟩
    · intro p rest h
      exact absurd h (by simp)
    · intro i h1 h2
      simp at h2
  | cons p0 t =>
    rcases p0 with ⟨n0, ci0⟩
    have hq0 : renameCategory ((n0, ci0) :: t) =
        (if pyStartsWith "unnamed" n0 = true then ("category", ci0)
         else (n0, ci0)) :: t := by
      by_cases h : pyStartsWith "unnamed" n0 = true <;>
        simp [renameCategory, h]
    have hra : renameAnon states (renameCategory ((n0, ci0) :: t)) =
        (if pyStartsWith "unnamed" n0 = true then ("category", ci0)
         else (n0, ci0)) ::
          renameRule (principalTaken states
            [(if pyStartsWith "unnamed" n0 = true then ("category", ci0)
              else (n0, ci0))] t) 1 t := by
      rw [hq0]
      show anonLoop states [_] 1 t = _
      rw [anonLoop_eq]
      rfl
    have hq0name : ((if pyStartsWith "unnamed" n0 = true then
        ("category", ci0) else (n0, ci0)).1 = "principal_diagnosis") ↔
        (n0 = "principal_diagnosis") := by
      by_cases h : pyStartsWith "unnamed" n0 = true
      · rw [if_pos h]
        constructor
        · intro hc
          exact absurd hc (by simp)
        · intro hc
          exact absurd (hc ▸ h) (by decide)
      · rw [if_neg h]
    refine ⟨?_, ?_, ?_⟩
    · rw [hra]
      rw [List.length_cons, renameRule_length]
      rfl
    · intro p rest h
      injection h with h1 _
      subst h1
      rw [hra, List.getD_cons_zero]
    · intro i hi1 hi2
      obtain ⟨m, rfl⟩ : ∃ m, i = m + 1 := ⟨i - 1, by omega⟩
      rw [hra, List.getD_cons_succ]
      have hm : m < t.length := by
        rw [List.length_cons] at hi2
        omega
      rw [renameRule_getD t _ 1 m hm]
      simp only [List.getD_cons_succ]
      have hcond : ((principalTaken states
          [(if pyStartsWith "unnamed" n0 = true then ("category", ci0)
            else (n0, ci0))] t) = true ∨
          ∃ k, k < m ∧ pyStartsWith "unnamed"
            (t.getD k ("", 0)).1 = true) ↔
          ("principal_diagnosis" ∈ states ∨
           (∃ q ∈ (n0, ci0) :: t, q.1 = "principal_diagnosis") ∨
           ∃ k, k < m + 1 ∧ 1 ≤ k ∧ pyStartsWith "unnamed"
             (((n0, ci0) :: t).getD k ("", 0)).1 = true) := by
        rw [principalTaken_iff]
        constructor
        · rintro ((h | h | h) | ⟨k, hk, ha⟩)
          · exact Or.inl h
          · rw [List.map_cons, List.map_nil, List.mem_singleton] at h
            refine Or.inr (Or.inl ⟨(n0, ci0), List.mem_cons_self _ _, ?_⟩)
            exact hq0name.1 h.symm
          · rw [List.mem_map] at h
            obtain ⟨q, hq, hqe⟩ := h
            exact Or.inr (Or.inl ⟨q, List.mem_cons_of_mem _ hq, hqe⟩)
          · refine Or.inr (Or.inr ⟨k + 1, by omega, by omega, ?_⟩)
            rw [List.getD_cons_succ]
            exact ha
        · rintro (h | ⟨q, hq, hqe⟩ | ⟨k, hk2, hk1, ha⟩)
          · exact Or.inl (Or.inl h)
          · rcases List.mem_cons.1 hq with rfl | hqt
            · refine Or.inl (Or.inr (Or.inl ?_))
              rw [List.map_cons, List.map_nil, List.mem_singleton]
              exact (hq0name.2 hqe).symm
            · refine Or.inl (Or.inr (Or.inr ?_))
              rw [List.mem_map]
              exact ⟨q, hqt, hqe⟩
          · obtain ⟨k', rfl⟩ : ∃ k', k = k' + 1 := ⟨k - 1, by omega⟩
            rw [List.getD_cons_succ] at ha
            exact Or.inr ⟨k', by omega, ha⟩
      rw [show 1 + m = m + 1 by omega]
      simp only [hcond]

/-- C3, witness: the amended rename theorem applied at a concrete column
list whose second dimension column is anonymous: it becomes
"principal_diagnosis". -/
theorem classify_rename_spec_witness :
    (renameAnon ["NSW", "VIC"]
      (renameCategory [("age_group", 0), ("unnamed:_1", 1)])).getD 1
        ("", 0) =
      (if pyStartsWith "unnamed"
          (([("age_group", 0), ("unnamed:_1", 1)].getD 1 ("", 0)).1) =
            true then
        (if ("principal_diagnosis" ∈ ["NSW", "VIC"] ∨
             (∃ q ∈ [("age_group", 0), ("unnamed:_1", 1)],
               q.1 = "principal_diagnosis") ∨
             ∃ k, k < 1 ∧ 1 ≤ k ∧ pyStartsWith "unnamed"
               (([("age_group", 0), ("unnamed:_1", 1)].getD k
                 ("", 0)).1) = true)
         then ("dimension_" ++ toString 1,
           ([("age_group", 0), ("unnamed:_1", 1)].getD 1 ("", 0)).2)
         else ("principal_diagnosis",
           ([("age_group", 0), ("unnamed:_1", 1)].getD 1 ("", 0)).2))
      else [("age_group", 0), ("unnamed:_1", 1)].getD 1 ("", 0)) :=
  (classify_rename_spec ["NSW", "VIC"]
    [("age_group", 0), ("unnamed:_1", 1)]).2.2 1 (by decide) (by decide)

/-- C3, counterexample: on a sheet whose first dimension column is named
("Age group") and whose second is anonymous, the first anonymous dimension
column is renamed "principal_diagnosis", not "category" — no column is
named "category" at all — refuting the claim that the first anonymous
dimension column becomes "category". -/
theorem classify_first_anon_cex :
    headerRow [[Cell.str "Age group", Cell.nan, Cell.str "NSW",
      Cell.str "VIC"]] = some 0 ∧
    (classifySheet [[Cell.str "Age group", Cell.nan, Cell.str "NSW",
      Cell.str "VIC"]] 0).2 =
      [("age_group", 0), ("principal_diagnosis", 1)] ∧
    pyStartsWith "unnamed" (pySafe (colLabel Cell.nan 1)) = true ∧
    pyStartsWith "unnamed" "age_group" = false ∧
    "category" ∉ ((classifySheet [[Cell.str "Age group", Cell.nan,
      Cell.str "NSW", Cell.str "VIC"]] 0).2.map Prod.fst) := by decide

end AihwEtl
